import Mathlib

/-!
# Verification of the Govt-Jobs-Site core (`server.py`)

A shallow embedding of the data model and core operations of the job
aggregation server: the dedupe/sort pipeline (`dedupe_and_sort_jobs`),
the cache store (`update_cache_snapshot`, `load_jobs_cache_from_disk`),
the paginated read (`api_jobs`), date coercion
(`scrape_freejobalert_table_page`'s last-date parsing and
`coerce_date_value`), the detail-extraction passes of
`fetch_job_details`, and the state inference of
`scrape_freejobalert_search_page`.

Python strings are modelled as Lean `String`s; Python string comparison
(lexicographic by code point) is modelled by `charListLe` on `.data`.
Python dicts holding job records are modelled by the structure
`JobRecord`; a missing key and a `None`/empty value behave identically
in all embedded code paths (the code only uses `.get(...)` combined with
truthiness tests), so both are modelled by the empty string / `none`.
-/

namespace GovtJobs

/-! ## Python string primitives -/

/-- Lexicographic comparison of char lists by code point: the order Python
uses for `str` comparison (`list.sort` on string keys). -/
def charListLe : List Char → List Char → Bool
  | [], _ => true
  | _ :: _, [] => false
  | a :: as, b :: bs =>
    if a.toNat < b.toNat then true
    else if b.toNat < a.toNat then false
    else charListLe as bs

/-- Python `s <= t` on strings. -/
def strLe (a b : String) : Bool :=
  charListLe a.data b.data

/-- Python `str.lower()` (ASCII range, which is all the embedded code uses). -/
def pyLower (s : String) : String :=
  String.mk (s.data.map Char.toLower)

/-- The characters Python `str.strip()` removes: space, tab, newline,
carriage return, vertical tab, form feed. -/
def pySpace (c : Char) : Bool :=
  c = ' ' || c = '\t' || c = '\n' || c = '\r' || c.toNat = 11 || c.toNat = 12

/-- Python `str.strip()` on a char list. -/
def pyStripList (cs : List Char) : List Char :=
  ((cs.dropWhile pySpace).reverse.dropWhile pySpace).reverse

/-- Python `str.strip()`. -/
def pyStrip (s : String) : String :=
  String.mk (pyStripList s.data)

/-- Split a char list on a separator character; the leading split of
Python `str.split(sep)` (always at least one, possibly empty, part). -/
def splitOnChar (sep : Char) : List Char → List (List Char)
  | [] => [[]]
  | c :: rest =>
    match splitOnChar sep rest with
    | [] => if c = sep then [[], []] else [[c]]
    | h :: t => if c = sep then [] :: h :: t else (c :: h) :: t

/-- Python `s.split(sep)` for a one-character separator. -/
def pySplit (sep : Char) (s : String) : List String :=
  (splitOnChar sep s.data).map String.mk

/-! ## Data model (`JobRecord`) -/

/-- One job listing, as produced by the page scrapers (`server.py`).
`state`, `postCount` and `location` are optional; the string fields are
always present, possibly empty (the code treats a missing key and an
empty value identically via `.get` + truthiness). -/
structure JobRecord where
  title : String := ""
  board : String := ""
  qualification : String := ""
  lastDate : String := ""
  source : String := ""
  url : String := ""
  state : Option String := none
  postCount : Option Nat := none
  location : Option String := none
deriving DecidableEq, Repr

/-- `server.py` line 113: maximum number of cached jobs. -/
def MAX_JOBS_TO_CACHE : Nat := 6000

/-- The dedupe key of `dedupe_and_sort_jobs` (line 127):
`job.get("url") or job.get("title")` — the url if non-empty, else the
title (possibly empty, in which case the record is dropped). -/
def jobKey (j : JobRecord) : String :=
  if j.url = "" then j.title else j.url

/-- `default_last_date_key` (lines 118-120): sort key for deadlines;
an empty (falsy) `lastDate` is replaced by the sentinel `"9999-12-31"`. -/
def default_last_date_key (j : JobRecord) : String :=
  if j.lastDate = "" then "9999-12-31" else j.lastDate

/-- The dedupe loop of `dedupe_and_sort_jobs` (lines 124-131): walk the
list, keep a record when its key is non-empty and unseen, remember the
key. The Python `seen` set is modelled as the list of keys added so far. -/
def dedupeLoop (seen : List String) : List JobRecord → List JobRecord
  | [] => []
  | j :: rest =>
    if jobKey j = "" ∨ jobKey j ∈ seen then dedupeLoop seen rest
    else j :: dedupeLoop (jobKey j :: seen) rest

/-- The comparison `deduped.sort(key=default_last_date_key)` sorts by:
Python compares the string keys lexicographically by code point. -/
def jobLE (a b : JobRecord) : Prop :=
  strLe (default_last_date_key a) (default_last_date_key b) = true

instance : DecidableRel jobLE := fun a b =>
  inferInstanceAs
    (Decidable (strLe (default_last_date_key a) (default_last_date_key b) = true))

/-- `dedupe_and_sort_jobs` (lines 122-133): dedupe by url/title key
(first occurrence wins), then `list.sort(key=default_last_date_key)`.
Python's `list.sort` is the stable sort for the total preorder `jobLE`;
`List.insertionSort` is also stable for it, and a stable sort of a list
under a total preorder is unique, so the two agree. -/
def dedupe_and_sort_jobs (jobs : List JobRecord) : List JobRecord :=
  List.insertionSort jobLE (dedupeLoop [] jobs)

/-! ## Cache store -/

/-- The module-level cache state of `server.py` (lines 99-103):
the snapshot plus the `loaded` / `loading` booleans.  The lock only
serialises access and does not affect the functional content. -/
structure CacheState where
  jobs_cache : List JobRecord := []
  jobs_loaded : Bool := false
  jobs_loading : Bool := false
deriving DecidableEq, Repr

/-- `update_cache_snapshot` (lines 171-178): dedupe/sort/truncate, swap
the snapshot, and assign `jobs_loaded = mark_loaded` (an unconditional
assignment in the source).  Disk persistence (line 178) is I/O and does
not change the in-memory state. -/
def update_cache_snapshot (jobs : List JobRecord) (mark_loaded : Bool)
    (st : CacheState) : CacheState :=
  let deduped := (dedupe_and_sort_jobs jobs).take MAX_JOBS_TO_CACHE
  { st with jobs_cache := deduped, jobs_loaded := mark_loaded }

/-- The shapes the persisted JSON payload can take, as distinguished by
`load_jobs_cache_from_disk` (lines 152-160): a bare array of records, a
mapping with a `jobs` list, a mapping without a `jobs` key (`.get`
defaults to `[]`), a mapping whose `jobs` value is not a list, or a
non-mapping value (on which `.get` raises, caught by the handler). -/
inductive DiskPayload
  | arr (jobs : List JobRecord)
  | objWithJobs (jobs : List JobRecord)
  | objNoJobs
  | objJobsNotList
  | nonMapping
deriving DecidableEq

/-- `load_jobs_cache_from_disk` (lines 147-169): returns whether loading
succeeded together with the new state.  On success the deduped, truncated
list is installed and `jobs_loaded` is set to `True`. -/
def load_jobs_cache_from_disk (file_exists : Bool) (payload : DiskPayload)
    (st : CacheState) : Bool × CacheState :=
  if !file_exists then (false, st)
  else
    match payload with
    | .arr jobs =>
        (true, { st with jobs_cache := (dedupe_and_sort_jobs jobs).take MAX_JOBS_TO_CACHE,
                         jobs_loaded := true })
    | .objWithJobs jobs =>
        (true, { st with jobs_cache := (dedupe_and_sort_jobs jobs).take MAX_JOBS_TO_CACHE,
                         jobs_loaded := true })
    | .objNoJobs =>
        (true, { st with jobs_cache := (dedupe_and_sort_jobs []).take MAX_JOBS_TO_CACHE,
                         jobs_loaded := true })
    | .objJobsNotList => (false, st)
    | .nonMapping => (false, st)

/-! ## Paginated read (`api_jobs`) -/

/-- The loading flag computed by `api_jobs` (line 1212):
`(not loaded) or jobs_loading`. -/
def api_loading_flag (st : CacheState) : Bool :=
  !st.jobs_loaded || st.jobs_loading

/-- The slicing core of `api_jobs` (lines 1195-1210): re-dedupe/sort the
snapshot, slice `[offset : min (offset+limit) total]`, and report
`next_offset` when records remain.  Python's slice `l[s:e]` with
non-negative bounds is `(l.drop s).take (e - s)`. -/
def api_jobs_slice (jobs : List JobRecord) (offset limit : Nat) :
    List JobRecord × Option Nat :=
  let deduped := dedupe_and_sort_jobs jobs
  let total := deduped.length
  let endIdx := min (offset + limit) total
  let page := (deduped.drop offset).take (endIdx - offset)
  (page, if endIdx < total then some endIdx else none)

/-! ## Date parsing and coercion -/

/-- `\d` over ASCII. -/
def isDigitChar (c : Char) : Bool :=
  48 ≤ c.toNat && c.toNat ≤ 57

/-- Numeric value of a digit character. -/
def digitVal (c : Char) : Nat := c.toNat - 48

/-- Python `int(...)` on a string of digit characters. -/
def natOfDigits (cs : List Char) : Nat :=
  cs.foldl (fun n c => 10 * n + digitVal c) 0

/-- The decimal digit character for `n % 10`. -/
def digitChar (n : Nat) : Char :=
  match n % 10 with
  | 0 => '0' | 1 => '1' | 2 => '2' | 3 => '3' | 4 => '4'
  | 5 => '5' | 6 => '6' | 7 => '7' | 8 => '8' | _ => '9'

/-- Gregorian leap year, as `datetime` implements it. -/
def isLeapYear (y : Nat) : Bool :=
  y % 4 = 0 && (y % 100 ≠ 0 || y % 400 = 0)

/-- Days in a month, as `datetime` implements it. -/
def daysInMonth (y m : Nat) : Nat :=
  if m = 2 then (if isLeapYear y then 29 else 28)
  else if m = 4 || m = 6 || m = 9 || m = 11 then 30
  else 31

/-- Whether `datetime(y, m, d)` succeeds (year 1-9999, valid month/day). -/
def isValidDate (y m d : Nat) : Bool :=
  1 ≤ y && y ≤ 9999 && 1 ≤ m && m ≤ 12 && 1 ≤ d && d ≤ daysInMonth y m

/-- `date(y, m, d).isoformat()`: `yyyy-mm-dd`, zero padded.  Agrees with
Python on the reachable domain (`y ≤ 9999`, `m, d ≤ 99`, guaranteed by
the digit-count of the parsed fields). -/
def isoDate (y m d : Nat) : String :=
  String.mk [digitChar (y / 1000), digitChar (y / 100), digitChar (y / 10),
             digitChar y, '-', digitChar (m / 10), digitChar m, '-',
             digitChar (d / 10), digitChar d]

/-- Take exactly `n` leading digit characters; return them and the rest. -/
def takeDigits : Nat → List Char → Option (List Char × List Char)
  | 0, cs => some ([], cs)
  | _ + 1, [] => none
  | n + 1, c :: cs =>
    if isDigitChar c then
      match takeDigits n cs with
      | some (ds, rest) => some (c :: ds, rest)
      | none => none
    else none

/-- Consume one separator character (a slash or a dash). -/
def afterSep : List Char → Option (List Char)
  | [] => none
  | c :: rest => if c = '/' || c = '-' then some rest else none

/-- Match sep, 1-2 digits, sep, 4 digits after a day value `d`, with the greedy
backtracking of `re` (`\d{1,2}` tries two digits, then one). -/
def matchMonthYear (d : Nat) (cs : List Char) : Option (Nat × Nat × Nat) :=
  (do
    let (ms, r1) ← takeDigits 2 cs
    let r2 ← afterSep r1
    let (ys, _) ← takeDigits 4 r2
    pure (d, natOfDigits ms, natOfDigits ys)) <|>
  (do
    let (ms, r1) ← takeDigits 1 cs
    let r2 ← afterSep r1
    let (ys, _) ← takeDigits 4 r2
    pure (d, natOfDigits ms, natOfDigits ys))

/-- Match the date pattern (1-2 digits, sep, 1-2 digits, sep, 4 digits,
with sep a slash or dash) anchored at the head of `cs`, returning the integer values of the captured groups. -/
def matchDateAt (cs : List Char) : Option (Nat × Nat × Nat) :=
  (do
    let (ds, r1) ← takeDigits 2 cs
    let r2 ← afterSep r1
    matchMonthYear (natOfDigits ds) r2) <|>
  (do
    let (ds, r1) ← takeDigits 1 cs
    let r2 ← afterSep r1
    matchMonthYear (natOfDigits ds) r2)

/-- `re.search` for the date pattern: the leftmost match. -/
def findDateMatch : List Char → Option (Nat × Nat × Nat)
  | [] => none
  | c :: rest => matchDateAt (c :: rest) <|> findDateMatch rest

/-- `coerce_date_value` (lines 868-877 of `server.py`): search the raw
value for the d-m-yyyy pattern above; on a match build
`datetime(yyyy, mm, dd)` and return its ISO date, and on a construction
failure, or when there is no match, return the raw value unchanged. -/
def coerce_date_value (raw_val : String) : String :=
  match findDateMatch raw_val.data with
  | some (d, m, y) => if isValidDate y m d then isoDate y m d else raw_val
  | none => raw_val

/-- The last-date parsing of `scrape_freejobalert_table_page`
(lines 568-572): `datetime.strptime(s, "%d-%m-%Y").date().isoformat()`,
and the empty string when `strptime` raises.  `strptime` succeeds exactly
when the whole string is `d-m-Y` with a 1-2 digit day 1-31, a 1-2 digit
month 1-12, a 4 digit year, and the triple forms a valid date. -/
def parse_table_last_date (s : String) : String :=
  match pySplit '-' s with
  | [ds, ms, ys] =>
    if (ds.data.length = 1 ∨ ds.data.length = 2) ∧ ds.data.all isDigitChar = true ∧
       1 ≤ natOfDigits ds.data ∧ natOfDigits ds.data ≤ 31 ∧
       (ms.data.length = 1 ∨ ms.data.length = 2) ∧ ms.data.all isDigitChar = true ∧
       1 ≤ natOfDigits ms.data ∧ natOfDigits ms.data ≤ 12 ∧
       ys.data.length = 4 ∧ ys.data.all isDigitChar = true ∧
       isValidDate (natOfDigits ys.data) (natOfDigits ms.data) (natOfDigits ds.data) = true
    then isoDate (natOfDigits ys.data) (natOfDigits ms.data) (natOfDigits ds.data)
    else ""
  | _ => ""

/-- Syntactic shape `dddd-dd-dd` (an ISO date string). -/
def isIsoShape (s : String) : Bool :=
  match s.data with
  | [y1, y2, y3, y4, h1, m1, m2, h2, d1, d2] =>
    isDigitChar y1 && isDigitChar y2 && isDigitChar y3 && isDigitChar y4 &&
    h1 = '-' && isDigitChar m1 && isDigitChar m2 && h2 = '-' &&
    isDigitChar d1 && isDigitChar d2
  | _ => false

/-! ## Detail extraction (`fetch_job_details`)

The `details` dict is modelled by `JobDetails`.  The keys `url` and
`html` are inserted unconditionally at entry (line 840); the other
fields listed here are exactly those the embedded passes (the table
key/value pass, lines 909-944, and the line-prefix scan, lines 950-975)
can insert.  The later heading-section and link-extraction passes
(lines 982-1143) touch only fields outside the claims under
verification and are not modelled. -/

structure JobDetails where
  url : String := ""
  html : String := ""
  companyName : Option String := none
  postName : Option String := none
  noOfPosts : Option String := none
  advtNo : Option String := none
  salary : Option String := none
  qualification : Option String := none
  startDate : Option String := none
  lastDate : Option String := none
  officialWebsite : Option String := none
  ageLimit : Option (List String) := none
  salaryDetails : Option (List String) := none
deriving DecidableEq, Repr

/-- The `key in details` key list of the modelled dict: `url` and `html`
are always present; an optional field is present when it is `some`. -/
def detailsKeys (d : JobDetails) : List String :=
  ["url", "html"] ++
  (if d.companyName.isSome then ["companyName"] else []) ++
  (if d.postName.isSome then ["postName"] else []) ++
  (if d.noOfPosts.isSome then ["noOfPosts"] else []) ++
  (if d.advtNo.isSome then ["advtNo"] else []) ++
  (if d.salary.isSome then ["salary"] else []) ++
  (if d.qualification.isSome then ["qualification"] else []) ++
  (if d.startDate.isSome then ["startDate"] else []) ++
  (if d.lastDate.isSome then ["lastDate"] else []) ++
  (if d.officialWebsite.isSome then ["officialWebsite"] else []) ++
  (if d.ageLimit.isSome then ["ageLimit"] else []) ++
  (if d.salaryDetails.isSome then ["salaryDetails"] else [])

/-- The canonical field names of the `key_map` alias table (line 911). -/
inductive DetailField
  | companyName | postName | noOfPosts | advtNo | salary
  | qualification | startDate | lastDate | officialWebsite | ageLimit
deriving DecidableEq, Repr

/-- `key_map` (lines 911-934): the static alias table folding normalized
table keys into canonical field names. -/
def key_map (k : String) : Option DetailField :=
  match k with
  | "company name" => some .companyName
  | "name of company" => some .companyName
  | "organization" => some .companyName
  | "organisation" => some .companyName
  | "post name" => some .postName
  | "post names" => some .postName
  | "name of post" => some .postName
  | "no of posts" => some .noOfPosts
  | "no. of posts" => some .noOfPosts
  | "number of posts" => some .noOfPosts
  | "advt no" => some .advtNo
  | "advt. no" => some .advtNo
  | "advertisement no" => some .advtNo
  | "salary" => some .salary
  | "pay scale" => some .salary
  | "qualification" => some .qualification
  | "age limit" => some .ageLimit
  | "start date for apply" => some .startDate
  | "start date" => some .startDate
  | "last date for apply" => some .lastDate
  | "last date" => some .lastDate
  | "official website" => some .officialWebsite
  | _ => none

/-- `mapped in details` for a canonical field. -/
def hasField (d : JobDetails) : DetailField → Bool
  | .companyName => d.companyName.isSome
  | .postName => d.postName.isSome
  | .noOfPosts => d.noOfPosts.isSome
  | .advtNo => d.advtNo.isSome
  | .salary => d.salary.isSome
  | .qualification => d.qualification.isSome
  | .startDate => d.startDate.isSome
  | .lastDate => d.lastDate.isSome
  | .officialWebsite => d.officialWebsite.isSome
  | .ageLimit => d.ageLimit.isSome

/-- `details[mapped] = ...` for the table key/value pass (lines 939-944):
age-limit values are wrapped as a one-element list and last dates pass
through `coerce_date_value`. -/
def setField (d : JobDetails) (f : DetailField) (val : String) : JobDetails :=
  match f with
  | .companyName => { d with companyName := some val }
  | .postName => { d with postName := some val }
  | .noOfPosts => { d with noOfPosts := some val }
  | .advtNo => { d with advtNo := some val }
  | .salary => { d with salary := some val }
  | .qualification => { d with qualification := some val }
  | .startDate => { d with startDate := some val }
  | .lastDate => { d with lastDate := some (coerce_date_value val) }
  | .officialWebsite => { d with officialWebsite := some val }
  | .ageLimit => { d with ageLimit := some [val] }

/-- Replace each maximal run of whitespace by a single space
(the effect of `re.sub` with a whitespace-run pattern and `" "`); the
flag records whether the previous character belonged to a run. -/
def collapseWSAux : Bool → List Char → List Char
  | _, [] => []
  | inRun, c :: rest =>
    if pySpace c then
      if inRun then collapseWSAux true rest
      else ' ' :: collapseWSAux true rest
    else c :: collapseWSAux false rest

/-- Collapse whitespace runs to single spaces. -/
def collapseWS (cs : List Char) : List Char :=
  collapseWSAux false cs

/-- `normalize_key` (lines 865-866): strip, lowercase, collapse
whitespace runs to single spaces. -/
def normalize_key (s : String) : String :=
  String.mk (collapseWS (pyStripList (pyLower s).data))

/-- Python `" ".join(...)`. -/
def joinSpace : List String → String
  | [] => ""
  | [x] => x
  | x :: xs => x ++ " " ++ joinSpace xs

/-- One table row's cell texts, already extracted (`get_text`). -/
abbrev TableRow := List String

/-- `parse_table_kv` (lines 879-890): every row with at least two cells
yields the normalized first cell as key and the joined non-empty
remaining cells as value; the first occurrence of a key wins.  The
accumulating dict is modelled as an association list in insertion
order (Python dicts preserve insertion order). -/
def parse_table_kv (tables : List (List TableRow)) : List (String × String) :=
  go (tables.flatMap id) []
where
  joinCells (cells : List String) : String :=
    joinSpace (cells.filter (fun c => c ≠ ""))
  go : List TableRow → List (String × String) → List (String × String)
  | [], acc => acc
  | row :: rest, acc =>
    match row with
    | [] => go rest acc
    | [_] => go rest acc
    | c0 :: c1 :: cs =>
      let key := normalize_key c0
      let val := joinCells (c1 :: cs)
      if key ≠ "" ∧ val ≠ "" ∧ (acc.all (fun p => p.1 ≠ key)) then
        go rest (acc ++ [(key, val)])
      else go rest acc

/-- One iteration of the table key/value extraction loop (lines
935-944): look the raw key up in `key_map` and fill the canonical field
only when it is not yet present (`mapped in details` skips). -/
def tableStep (d : JobDetails) (p : String × String) : JobDetails :=
  match key_map p.1 with
  | none => d
  | some f => if hasField d f then d else setField d f p.2

/-- The table key/value extraction pass (lines 935-944): fold the
`table_kv` items in order. -/
def applyTableKV (kv : List (String × String)) (d : JobDetails) : JobDetails :=
  kv.foldl tableStep d

/-- The text after the first colon of a line, stripped
(`line.split(":", 1)[1].strip()`). -/
def afterColon (line : String) : String :=
  match line.data.dropWhile (fun c => c ≠ ':') with
  | [] => ""
  | _ :: rest => pyStrip (String.mk rest)

/-- `find_value` (lines 858-863): return the value of the first line that
starts (case-insensitively) with any `p + ":"`, even when that value is
empty; the empty string when no line matches. -/
def find_value (ps : List String) (lines : List String) : String :=
  match lines with
  | [] => ""
  | line :: rest =>
    if ps.any (fun p => (pyLower (p ++ ":")).data.isPrefixOf (pyLower line).data) then
      afterColon line
    else find_value ps rest

/-- Line-prefix scan, step 1 (lines 950-953): post name. -/
def scanPostName (lines : List String) (d : JobDetails) : JobDetails :=
  let v := find_value ["post name", "post names", "post", "name of post"] lines
  if v ≠ "" then { d with postName := some v } else d

/-- Line-prefix scan, step 2 (lines 954-957): number of posts. -/
def scanNoOfPosts (lines : List String) (d : JobDetails) : JobDetails :=
  let v := find_value ["no of posts", "no. of posts", "number of posts",
                       "no of vacancy", "vacancies"] lines
  if v ≠ "" then { d with noOfPosts := some v } else d

/-- Line-prefix scan, step 3 (lines 958-962): salary, which also sets
`salaryDetails`. -/
def scanSalary (lines : List String) (d : JobDetails) : JobDetails :=
  let v := find_value ["salary", "pay scale", "stipend"] lines
  if v ≠ "" then { d with salary := some v, salaryDetails := some [v] } else d

/-- Line-prefix scan, step 4 (lines 963-966): qualification. -/
def scanQualification (lines : List String) (d : JobDetails) : JobDetails :=
  let v := find_value ["qualification", "educational qualification",
                       "essential qualification"] lines
  if v ≠ "" then { d with qualification := some v } else d

/-- Line-prefix scan, step 5 (lines 967-971): age limit, wrapped in a
one-element list. -/
def scanAgeLimit (lines : List String) (d : JobDetails) : JobDetails :=
  let v := find_value ["age limit", "age", "age as on"] lines
  if v ≠ "" then { d with ageLimit := some [v] } else d

/-- Line-prefix scan, step 6 (lines 972-975): last date, passed through
`coerce_date_value`. -/
def scanLastDate (lines : List String) (d : JobDetails) : JobDetails :=
  let v := find_value ["last date", "last date for online application",
                       "last date to apply"] lines
  if v ≠ "" then { d with lastDate := some (coerce_date_value v) } else d

/-- The whole line-prefix scan (lines 950-975), in source order.  Every
step assigns its field whenever a matching line with a non-empty value
exists — the source has no `not in details` guard here. -/
def applyLineScan (lines : List String) (d : JobDetails) : JobDetails :=
  scanLastDate lines (scanAgeLimit lines (scanQualification lines
    (scanSalary lines (scanNoOfPosts lines (scanPostName lines d)))))

/-- A fetched details page, after markup stripping: its visible text and
its tables' cell texts. -/
structure DetailsPage where
  text : String := ""
  tables : List (List TableRow) := []
deriving DecidableEq, Repr

/-- `lines` preprocessing (line 856): split the text on newlines, strip
each line, keep the non-empty ones. -/
def pageLines (text : String) : List String :=
  ((pySplit '\n' text).map pyStrip).filter (fun l => l ≠ "")

/-- `fetch_job_details` (from line 831), up to and including the
line-prefix scan (line 975); `page = none` models a fetch failure
(`requests.get` raising, lines 843-847).  The initial dict is
`\x7b"url": job_url, "html": ""\x7d` (line 840); an empty url and a fetch
failure both return it unchanged. -/
def fetch_job_details (job_url : String) (page : Option DetailsPage) :
    JobDetails :=
  let details : JobDetails := { url := job_url, html := "" }
  if job_url = "" then details
  else
    match page with
    | none => details
    | some pg =>
      let details := { details with html := pg.text }
      let details := applyTableKV (parse_table_kv pg.tables) details
      applyLineScan (pageLines pg.text) details

/-! ## State inference (`scrape_freejobalert_search_page`, lines 675-684)

The source removes word-boundary-delimited occurrences of
`word District`, `District` or `State` (case-insensitive, alternatives
tried in that order) from the trailing comma-separated segment of the
location, the `re.sub` scanning left to right and resuming after each
match. -/

/-- The word characters of the regex: alphanumerics and underscore
(ASCII range, which covers the embedded inputs). -/
def isWordChar (c : Char) : Bool :=
  c.isAlphanum || c = '_'

/-- `pat` is a literal heading of `cs`. -/
def isPrefixList : List Char → List Char → Bool
  | [], _ => true
  | _ :: _, [] => false
  | p :: ps, c :: cs => p == c && isPrefixList ps cs

/-- `pat` occurs as a contiguous run inside `cs`. -/
def hasSub (pat : List Char) : List Char → Bool
  | [] => pat.isEmpty
  | c :: cs => isPrefixList pat (c :: cs) || hasSub pat cs

/-- Match a lowercase literal pattern case-insensitively at the head of
`cs`; return the rest on success. -/
def ciAt : List Char → List Char → Option (List Char)
  | [], cs => some cs
  | _ :: _, [] => none
  | p :: ps, c :: cs => if c.toLower = p then ciAt ps cs else none

/-- Word boundary after a match: end of input or a non-word char. -/
def nonWordNext : List Char → Bool
  | [] => true
  | c :: _ => !isWordChar c

/-- Match one regex alternative of the state-cleanup substitution at the
head of `cs` (the caller guarantees the boundary before): in order,
`word District`, `District`, `State`; returns the match length.  The
greedy `w+` of the first alternative must consume the whole leading
word-char run, because the following pattern char is a space. -/
def matchDS (cs : List Char) : Option Nat :=
  let run := cs.takeWhile isWordChar
  let alt1 : Option Nat :=
    if run.isEmpty then none
    else
      match ciAt (' ' :: "district".data) (cs.drop run.length) with
      | some rest => if nonWordNext rest then some (run.length + 9) else none
      | none => none
  let alt2 : Option Nat :=
    match ciAt "district".data cs with
    | some rest => if nonWordNext rest then some 8 else none
    | none => none
  let alt3 : Option Nat :=
    match ciAt "state".data cs with
    | some rest => if nonWordNext rest then some 5 else none
    | none => none
  alt1 <|> alt2 <|> alt3

/-- The `re.sub` scan: walk the string; at each position with a word
boundary before it (`atB` records that the previous char was not a word
char), try `matchDS` and, on a match, drop it and resume after it (every
alternative ends in a word char, so the next position has no boundary).
The fuel is at least the list length at every call site, and a step
consumes at least one char, so the fuel never runs out. -/
def subDS : Nat → Bool → List Char → List Char
  | 0, _, cs => cs
  | _ + 1, _, [] => []
  | fuel + 1, atB, c :: rest =>
    if atB && isWordChar c then
      match matchDS (c :: rest) with
      | some len => subDS fuel false ((c :: rest).drop len)
      | none => c :: subDS fuel (!isWordChar c) rest
    else c :: subDS fuel (!isWordChar c) rest

/-- The `re.sub` of line 683 applied to a candidate segment. -/
def removeDistrictState (s : String) : String :=
  String.mk (subDS s.data.length true s.data)

/-- The state inference (lines 675-684): when the forced state is falsy
(`None` or empty) and the location contains a comma, split on commas,
strip each part, take the last, apply the cleanup substitution and
strip; an empty result yields `None` (`candidate or None`).  Otherwise
the forced state is returned unchanged. -/
def infer_state (forced : Option String) (location : Option String) :
    Option String :=
  match location with
  | none => forced
  | some loc =>
    if (forced = none ∨ forced = some "") ∧ loc.data.contains ',' = true then
      let parts := (pySplit ',' loc).map pyStrip
      match parts.getLast? with
      | some cand0 =>
        let cand := pyStrip (removeDistrictState cand0)
        if cand = "" then none else some cand
      | none => forced
    else forced

/-! ## Claim-side comparison definitions

These two definitions follow the words of the specification, not the
source; they exist to be compared with the source-derived definitions
above. -/

/-- Modelled from the spec: "compute dedupe key per record (url, else
title); keep the first occurrence encountered, drop later ones sharing a
key"; "records with neither are dropped".  An equivalent, filter-based
rendering of first-occurrence deduplication, to be compared with
`dedupeLoop`. -/
def specDedup : List JobRecord → List JobRecord
  | [] => []
  | j :: rest =>
    if jobKey j = "" then specDedup rest
    else j :: specDedup (rest.filter (fun x => jobKey x ≠ jobKey j))
termination_by l => l.length
decreasing_by
  · simp
  · simpa [Nat.lt_succ_iff] using (List.filter_sublist rest).length_le

/-- A match of the claim-side cleanup: only the standalone tokens
`District` / `State` (case-insensitive, word-boundary delimited),
without the `word District` alternative of the source. -/
def matchDSClaim (cs : List Char) : Option Nat :=
  let alt2 : Option Nat :=
    match ciAt "district".data cs with
    | some rest => if nonWordNext rest then some 8 else none
    | none => none
  let alt3 : Option Nat :=
    match ciAt "state".data cs with
    | some rest => if nonWordNext rest then some 5 else none
    | none => none
  alt2 <|> alt3

/-- The claim-side substitution scan, structured like `subDS`. -/
def subDSClaim : Nat → Bool → List Char → List Char
  | 0, _, cs => cs
  | _ + 1, _, [] => []
  | fuel + 1, atB, c :: rest =>
    if atB && isWordChar c then
      match matchDSClaim (c :: rest) with
      | some len => subDSClaim fuel false ((c :: rest).drop len)
      | none => c :: subDSClaim fuel (!isWordChar c) rest
    else c :: subDSClaim fuel (!isWordChar c) rest

/-- Modelled from the claim: "the inferred state is the segment after
the last comma, stripped of surrounding whitespace, with only the
literal tokens District / State removed". -/
def claimStateInference (loc : String) : Option String :=
  if loc.data.contains ',' = true then
    let parts := (pySplit ',' loc).map pyStrip
    match parts.getLast? with
    | some cand0 =>
      let cand := pyStrip (String.mk (subDSClaim cand0.data.length true cand0.data))
      if cand = "" then none else some cand
    | none => none
  else none

/-- A concrete 120-record cache with pairwise distinct urls and no
deadlines, used to instantiate the pagination theorem. -/
def testJobs : List JobRecord :=
  (List.range 120).map (fun i => { url := "u" ++ Nat.repr i })

/-- A concrete record with no deadline, for instantiating theorems. -/
def jobNoDate : JobRecord := { url := "u-nodate" }

/-- A concrete record with a parseable deadline, for instantiating
theorems. -/
def jobMarch : JobRecord := { url := "u-march", lastDate := "2026-03-15" }

/-- A concrete record whose deadline equals the sentinel date
`9999-12-31`, whose sort key therefore collides with the empty-date
sentinel. -/
def jobSentinelDate : JobRecord := { url := "u-sentinel", lastDate := "9999-12-31" }

/-! # Theorems -/

/-! ## The code-point order on char lists -/

theorem charListLe_refl : ∀ l : List Char, charListLe l l = true
  | [] => rfl
  | c :: cs => by
    unfold charListLe
    rw [if_neg (by omega), if_neg (by omega)]
    exact charListLe_refl cs

theorem charListLe_total : ∀ as bs : List Char,
    charListLe as bs = true ∨ charListLe bs as = true := by
  intro as
  induction as with
  | nil => intro bs; exact Or.inl rfl
  | cons a as ih =>
    intro bs
    cases bs with
    | nil => exact Or.inr rfl
    | cons b bs =>
      unfold charListLe
      rcases Nat.lt_trichotomy a.toNat b.toNat with h | h | h
      · left; rw [if_pos h]
      · rw [if_neg (by omega), if_neg (by omega), if_neg (by omega), if_neg (by omega)]
        exact ih bs
      · right; rw [if_pos h]

theorem charListLe_trans : ∀ as bs cs : List Char,
    charListLe as bs = true → charListLe bs cs = true →
    charListLe as cs = true := by
  intro as
  induction as with
  | nil => intro bs cs _ _; rfl
  | cons a as ih =>
    intro bs cs h1 h2
    cases bs with
    | nil => simp [charListLe] at h1
    | cons b bs =>
      cases cs with
      | nil => simp [charListLe] at h2
      | cons c cs =>
        unfold charListLe at h1 h2 ⊢
        split_ifs at h1 h2 ⊢ <;>
          first
          | rfl
          | omega
          | exact ih bs cs h1 h2

instance : IsTotal JobRecord jobLE :=
  ⟨fun _ _ => charListLe_total _ _⟩

instance : IsTrans JobRecord jobLE :=
  ⟨fun _ _ _ h1 h2 => charListLe_trans _ _ _ h1 h2⟩

instance : IsRefl JobRecord jobLE :=
  ⟨fun _ => charListLe_refl _⟩

/-! ## C1: the `loaded` flag under `replace` -/

/-- C1 (counterexample): a replace with `markLoaded=false` does not
leave the `loaded` flag unchanged — starting from a state with
`loaded=true` (a completed first cycle), the call flips it to `false`,
because line 177 assigns `jobs_loaded = mark_loaded` unconditionally. -/
theorem update_cache_clears_loaded_cex :
    (update_cache_snapshot [] false
      { jobs_cache := [], jobs_loaded := true, jobs_loading := true }).jobs_loaded ≠
    ({ jobs_cache := [], jobs_loaded := true, jobs_loading := true } :
      CacheState).jobs_loaded := by
  decide

/-- C1 (amended): `update_cache_snapshot` assigns the `loaded` flag to
the `markLoaded` argument unconditionally (so a mid-cycle replace with
`markLoaded=false` resets a previously true flag); it leaves `loading`
untouched and installs the deduped, sorted, truncated snapshot. -/
theorem update_cache_snapshot_spec (jobs : List JobRecord) (b : Bool)
    (st : CacheState) :
    (update_cache_snapshot jobs b st).jobs_loaded = b ∧
    (update_cache_snapshot jobs b st).jobs_loading = st.jobs_loading ∧
    (update_cache_snapshot jobs b st).jobs_cache =
      (dedupe_and_sort_jobs jobs).take MAX_JOBS_TO_CACHE :=
  ⟨rfl, rfl, rfl⟩

/-! ## C6: fetch failure in `fetch_job_details` -/

/-- C6 (counterexample): on a fetch failure the returned details object
is not `url`-only — the `html` key is present as well (initialised to
the empty string at line 840 and returned at line 847). -/
theorem fetch_failure_html_present_cex :
    detailsKeys (fetch_job_details "https://example.com/post" none) ≠
      ["url"] := by
  decide

/-- C6 (amended): for every post URL whose page fetch fails,
`fetch_job_details` returns (does not raise) a details object whose
only present keys are `url` (set to the requested URL) and `html` (set
to the empty string); every other field is absent. -/
theorem fetch_failure_minimal_result (u : String) :
    (fetch_job_details u none).url = u ∧
    (fetch_job_details u none).html = "" ∧
    detailsKeys (fetch_job_details u none) = ["url", "html"] := by
  unfold fetch_job_details
  split <;> exact ⟨rfl, rfl, rfl⟩

/-! ## Deduplication lemmas -/

theorem mem_of_mem_dedupeLoop {j : JobRecord} :
    ∀ {seen : List String} {l : List JobRecord},
    j ∈ dedupeLoop seen l → j ∈ l := by
  intro seen l
  induction l generalizing seen with
  | nil => intro h; simp [dedupeLoop] at h
  | cons x rest ih =>
    intro h
    unfold dedupeLoop at h
    split at h
    · exact List.mem_cons_of_mem _ (ih h)
    · rcases List.mem_cons.1 h with h | h
      · exact h ▸ List.mem_cons_self _ _
      · exact List.mem_cons_of_mem _ (ih h)

theorem dedupeLoop_key_ne {j : JobRecord} :
    ∀ {seen : List String} {l : List JobRecord},
    j ∈ dedupeLoop seen l → jobKey j ≠ "" ∧ jobKey j ∉ seen := by
  intro seen l
  induction l generalizing seen with
  | nil => intro h; simp [dedupeLoop] at h
  | cons x rest ih =>
    intro h
    unfold dedupeLoop at h
    split at h
    · exact ih h
    · next hcond =>
      push_neg at hcond
      rcases List.mem_cons.1 h with h | h
      · exact h ▸ ⟨hcond.1, hcond.2⟩
      · have := ih h
        exact ⟨this.1, fun hm => this.2 (List.mem_cons_of_mem _ hm)⟩

theorem dedupeLoop_keys_nodup :
    ∀ (seen : List String) (l : List JobRecord),
    ((dedupeLoop seen l).map jobKey).Nodup := by
  intro seen l
  induction l generalizing seen with
  | nil => simp [dedupeLoop]
  | cons x rest ih =>
    unfold dedupeLoop
    split
    · exact ih seen
    · simp only [List.map_cons, List.nodup_cons]
      refine ⟨fun hm => ?_, ih _⟩
      rcases List.mem_map.1 hm with ⟨j, hj, hkey⟩
      exact (dedupeLoop_key_ne hj).2 (hkey ▸ List.mem_cons_self _ _)

theorem dedupeLoop_id :
    ∀ (l : List JobRecord) (seen : List String),
    (∀ j ∈ l, jobKey j ≠ "") → (∀ j ∈ l, jobKey j ∉ seen) →
    (l.map jobKey).Nodup → dedupeLoop seen l = l := by
  intro l
  induction l with
  | nil => intro seen _ _ _; rfl
  | cons x rest ih =>
    intro seen hne hseen hnd
    unfold dedupeLoop
    rw [if_neg, ih]
    · intro j hj; exact hne j (List.mem_cons_of_mem _ hj)
    · intro j hj
      simp only [List.map_cons, List.nodup_cons] at hnd
      intro hm
      rcases List.mem_cons.1 hm with hm | hm
      · exact hnd.1 (hm ▸ List.mem_map_of_mem jobKey hj)
      · exact hseen j (List.mem_cons_of_mem _ hj) hm
    · simp only [List.map_cons, List.nodup_cons] at hnd
      exact hnd.2
    · push_neg
      exact ⟨hne x (List.mem_cons_self _ _), hseen x (List.mem_cons_self _ _)⟩

theorem dedupeLoop_eq_specDedup_filter :
    ∀ (l : List JobRecord) (seen : List String), "" ∉ seen →
    dedupeLoop seen l = specDedup (l.filter (fun j => !decide (jobKey j ∈ seen))) := by
  intro l
  induction l with
  | nil => intro seen _; simp [dedupeLoop, specDedup]
  | cons x rest ih =>
    intro seen hempty
    unfold dedupeLoop
    by_cases hk : jobKey x = ""
    · rw [if_pos (Or.inl hk)]
      have hxkeep : (!decide (jobKey x ∈ seen)) = true := by
        simp only [Bool.not_eq_true', decide_eq_false_iff_not]
        exact fun hm => hempty (hk ▸ hm)
      simp only [List.filter_cons, hxkeep, if_true]
      unfold specDedup
      rw [if_pos hk]
      exact ih seen hempty
    · by_cases hseen : jobKey x ∈ seen
      · rw [if_pos (Or.inr hseen)]
        have hdrop : (!decide (jobKey x ∈ seen)) = false := by simp [hseen]
        simp only [List.filter_cons, hdrop, Bool.false_eq_true, if_false]
        exact ih seen hempty
      · rw [if_neg (by push_neg; exact ⟨hk, hseen⟩)]
        have hxkeep : (!decide (jobKey x ∈ seen)) = true := by
          simp [hseen]
        simp only [List.filter_cons, hxkeep, if_true]
        unfold specDedup
        rw [if_neg hk]
        have hne2 : "" ∉ jobKey x :: seen := by
          intro hm
          rcases List.mem_cons.1 hm with hm | hm
          · exact hk hm.symm
          · exact hempty hm
        rw [ih (jobKey x :: seen) hne2]
        congr 2
        rw [List.filter_filter]
        apply List.filter_congr
        intro j _
        by_cases h1 : jobKey j = jobKey x <;> by_cases h2 : jobKey j ∈ seen <;>
          simp [h1, h2]

/-! ## C2: first-occurrence deduplication, non-empty keys, no duplicates -/

/-- C2 (confirmed): `dedupe_and_sort_jobs` output has pairwise distinct
dedupe keys, all of them non-empty (so no two records share an equal
non-empty key, and keyless records are dropped); the dedupe phase equals
the claim-side first-occurrence filter `specDedup` (first occurrence of
each key kept, later ones dropped, keyless records dropped), and the
sorted output is a permutation of it. -/
theorem dedupe_first_seen_wins (L : List JobRecord) :
    dedupeLoop [] L = specDedup L ∧
    List.Perm (dedupe_and_sort_jobs L) (specDedup L) ∧
    ((dedupe_and_sort_jobs L).map jobKey).Nodup ∧
    (dedupe_and_sort_jobs L).all (fun j => !decide (jobKey j = "")) = true := by
  have heq : dedupeLoop [] L = specDedup L := by
    have := dedupeLoop_eq_specDedup_filter L [] (by simp)
    simpa using this
  refine ⟨heq, ?_, ?_, ?_⟩
  · exact heq ▸ List.perm_insertionSort jobLE (dedupeLoop [] L)
  · have hperm : List.Perm ((dedupe_and_sort_jobs L).map jobKey)
        ((dedupeLoop [] L).map jobKey) :=
      (List.perm_insertionSort jobLE (dedupeLoop [] L)).map jobKey
    exact hperm.symm.nodup (dedupeLoop_keys_nodup [] L)
  · rw [List.all_eq_true]
    intro j hj
    have hmem : j ∈ dedupeLoop [] L :=
      (List.perm_insertionSort jobLE (dedupeLoop [] L)).mem_iff.1 hj
    simpa using (dedupeLoop_key_ne hmem).1

/-! ## C4: idempotence of `dedupe_and_sort_jobs` -/

/-- C4 (confirmed): `dedupe_and_sort_jobs` is idempotent — its output
has pairwise-distinct non-empty keys (so the second dedupe keeps
everything) and is already sorted (so the second stable sort leaves it
in place). -/
theorem dedupe_and_sort_idempotent (L : List JobRecord) :
    dedupe_and_sort_jobs (dedupe_and_sort_jobs L) = dedupe_and_sort_jobs L := by
  have hperm := List.perm_insertionSort jobLE (dedupeLoop [] L)
  have hid : dedupeLoop [] (dedupe_and_sort_jobs L) = dedupe_and_sort_jobs L := by
    apply dedupeLoop_id
    · intro j hj
      exact (dedupeLoop_key_ne (hperm.mem_iff.1 hj)).1
    · intro j _
      simp
    · have hpm : List.Perm ((dedupe_and_sort_jobs L).map jobKey)
          ((dedupeLoop [] L).map jobKey) :=
        hperm.map jobKey
      exact hpm.symm.nodup (dedupeLoop_keys_nodup [] L)
  have hsorted : List.Sorted jobLE (dedupe_and_sort_jobs L) :=
    List.sorted_insertionSort jobLE (dedupeLoop [] L)
  have h2 : dedupe_and_sort_jobs (dedupe_and_sort_jobs L) =
      List.insertionSort jobLE (dedupe_and_sort_jobs L) := by
    show List.insertionSort jobLE (dedupeLoop [] (dedupe_and_sort_jobs L)) = _
    rw [hid]
  rw [h2]
  exact hsorted.insertionSort_eq

/-! ## Stability of the sort -/

theorem filter_key_orderedInsert (k : String) (a : JobRecord)
    (l : List JobRecord) :
    (List.orderedInsert jobLE a l).filter
        (fun r => default_last_date_key r == k) =
    (if default_last_date_key a == k then
        a :: l.filter (fun r => default_last_date_key r == k)
      else l.filter (fun r => default_last_date_key r == k)) := by
  induction l with
  | nil => simp [List.orderedInsert, List.filter_cons]
  | cons b bs ih =>
    rw [List.orderedInsert]
    by_cases hab : jobLE a b
    · rw [if_pos hab]
      simp [List.filter_cons]
    · rw [if_neg hab]
      simp only [List.filter_cons, ih]
      by_cases hpb : (default_last_date_key b == k) = true
      · by_cases hpa : (default_last_date_key a == k) = true
        · exfalso
          apply hab
          unfold jobLE strLe
          rw [eq_of_beq hpa, eq_of_beq hpb]
          exact charListLe_refl _
        · simp [hpa, hpb]
      · simp [hpb]

theorem filter_key_insertionSort (k : String) (l : List JobRecord) :
    (List.insertionSort jobLE l).filter
        (fun r => default_last_date_key r == k) =
    l.filter (fun r => default_last_date_key r == k) := by
  induction l with
  | nil => rfl
  | cons x xs ih =>
    simp only [List.insertionSort, filter_key_orderedInsert, ih, List.filter_cons]

/-! ## Digit and ISO-format lemmas -/

theorem digitChar_toNat (n : Nat) : (digitChar n).toNat = 48 + n % 10 := by
  have h : n % 10 < 10 := Nat.mod_lt n (by omega)
  unfold digitChar
  generalize hk : n % 10 = m10
  rw [hk] at h
  interval_cases m10 <;> decide

theorem isDigitChar_digitChar (n : Nat) : isDigitChar (digitChar n) = true := by
  have h : n % 10 < 10 := Nat.mod_lt n (by omega)
  unfold isDigitChar
  rw [digitChar_toNat]
  simp only [Bool.and_eq_true, decide_eq_true_eq]
  omega

theorem isoDate_shape (y m d : Nat) : isIsoShape (isoDate y m d) = true := by
  simp [isIsoShape, isoDate, isDigitChar_digitChar]

theorem charListLe_cons_lt {a b : Char} (as bs : List Char)
    (h : b.toNat < a.toNat) : charListLe (a :: as) (b :: bs) = false := by
  unfold charListLe
  rw [if_neg (by omega), if_pos h]

theorem charListLe_cons_eq {a b : Char} (as bs : List Char)
    (h : a.toNat = b.toNat) : charListLe (a :: as) (b :: bs) = charListLe as bs := by
  simp only [charListLe]
  rw [if_neg (by omega), if_neg (by omega)]

/-- The sentinel `"9999-12-31"` is strictly greater (in the Python string
order) than the ISO form of every valid date other than 9999-12-31
itself. -/
theorem sentinel_not_le_valid (y m d : Nat) (hv : isValidDate y m d = true)
    (hne : ¬(y = 9999 ∧ m = 12 ∧ d = 31)) :
    charListLe ("9999-12-31".data) ((isoDate y m d).data) = false := by
  have hd31 : daysInMonth y m ≤ 31 := by
    unfold daysInMonth; split_ifs <;> omega
  unfold isValidDate at hv
  simp only [Bool.and_eq_true, decide_eq_true_eq] at hv
  obtain ⟨⟨⟨⟨⟨hy1, hy2⟩, hm1⟩, hm2⟩, hd1⟩, hd2⟩ := hv
  have hd2' : d ≤ 31 := le_trans hd2 hd31
  have hdata : ("9999-12-31" : String).data =
      ['9', '9', '9', '9', '-', '1', '2', '-', '3', '1'] := rfl
  have hdata2 : (isoDate y m d).data =
      [digitChar (y / 1000), digitChar (y / 100), digitChar (y / 10),
       digitChar y, '-', digitChar (m / 10), digitChar m, '-',
       digitChar (d / 10), digitChar d] := rfl
  rw [hdata, hdata2]
  have h9 : ('9' : Char).toNat = 57 := rfl
  have h1c : ('1' : Char).toNat = 49 := rfl
  have h2c : ('2' : Char).toNat = 50 := rfl
  have h3c : ('3' : Char).toNat = 51 := rfl
  -- year, thousands digit
  rcases Nat.lt_or_ge (y / 1000 % 10) 9 with q1 | q1
  · exact charListLe_cons_lt _ _ (by rw [digitChar_toNat, h9]; omega)
  have e1 : y / 1000 % 10 = 9 := by
    have : y / 1000 % 10 < 10 := Nat.mod_lt _ (by omega)
    omega
  rw [charListLe_cons_eq _ _ (by rw [digitChar_toNat, h9, e1])]
  -- year, hundreds digit
  rcases Nat.lt_or_ge (y / 100 % 10) 9 with q2 | q2
  · exact charListLe_cons_lt _ _ (by rw [digitChar_toNat, h9]; omega)
  have e2 : y / 100 % 10 = 9 := by
    have : y / 100 % 10 < 10 := Nat.mod_lt _ (by omega)
    omega
  rw [charListLe_cons_eq _ _ (by rw [digitChar_toNat, h9, e2])]
  -- year, tens digit
  rcases Nat.lt_or_ge (y / 10 % 10) 9 with q3 | q3
  · exact charListLe_cons_lt _ _ (by rw [digitChar_toNat, h9]; omega)
  have e3 : y / 10 % 10 = 9 := by
    have : y / 10 % 10 < 10 := Nat.mod_lt _ (by omega)
    omega
  rw [charListLe_cons_eq _ _ (by rw [digitChar_toNat, h9, e3])]
  -- year, units digit
  rcases Nat.lt_or_ge (y % 10) 9 with q4 | q4
  · exact charListLe_cons_lt _ _ (by rw [digitChar_toNat, h9]; omega)
  have e4 : y % 10 = 9 := by
    have : y % 10 < 10 := Nat.mod_lt _ (by omega)
    omega
  rw [charListLe_cons_eq _ _ (by rw [digitChar_toNat, h9, e4])]
  have hy9999 : y = 9999 := by omega
  -- first dash
  rw [charListLe_cons_eq _ _ rfl]
  -- month, tens digit
  have hmdiv : m / 10 ≤ 1 := by omega
  rcases Nat.lt_or_ge (m / 10 % 10) 1 with q5 | q5
  · exact charListLe_cons_lt _ _ (by rw [digitChar_toNat, h1c]; omega)
  have e5 : m / 10 % 10 = 1 := by omega
  rw [charListLe_cons_eq _ _ (by rw [digitChar_toNat, h1c, e5])]
  have hm10 : 10 ≤ m := by omega
  -- month, units digit
  rcases Nat.lt_or_ge (m % 10) 2 with q6 | q6
  · exact charListLe_cons_lt _ _ (by rw [digitChar_toNat, h2c]; omega)
  have e6 : m % 10 = 2 := by omega
  rw [charListLe_cons_eq _ _ (by rw [digitChar_toNat, h2c, e6])]
  have hm12 : m = 12 := by omega
  -- second dash
  rw [charListLe_cons_eq _ _ rfl]
  -- day, tens digit
  have hddiv : d / 10 ≤ 3 := by omega
  rcases Nat.lt_or_ge (d / 10 % 10) 3 with q7 | q7
  · exact charListLe_cons_lt _ _ (by rw [digitChar_toNat, h3c]; omega)
  have e7 : d / 10 % 10 = 3 := by omega
  rw [charListLe_cons_eq _ _ (by rw [digitChar_toNat, h3c, e7])]
  have hd30 : 30 ≤ d := by omega
  -- day, units digit
  rcases Nat.lt_or_ge (d % 10) 1 with q8 | q8
  · exact charListLe_cons_lt _ _ (by rw [digitChar_toNat, h1c]; omega)
  have e8 : d % 10 = 1 := by omega
  have hd31' : d = 31 := by omega
  exact (hne ⟨hy9999, hm12, hd31'⟩).elim

/-! ## C3: ordering of the cache snapshot -/

/-- C3 (counterexample): a record whose parseable `lastDate` is the
literal `9999-12-31` gets the same sort key as the empty-date sentinel
(`job.get("lastDate") or "9999-12-31"`), so the stable sort keeps an
earlier empty-dated record *before* it: on
`[jobNoDate, jobSentinelDate]` the output still has the empty-dated
record first, refuting "every record whose lastDate is empty comes
after every record with a parseable date" as stated. -/
theorem dedupe_sentinel_tie_cex :
    dedupe_and_sort_jobs [jobNoDate, jobSentinelDate] =
      [jobNoDate, jobSentinelDate] ∧
    jobNoDate.lastDate = "" ∧
    jobSentinelDate.lastDate ≠ "" ∧
    ¬ List.Pairwise (fun a b => ¬(a.lastDate = "" ∧ b.lastDate ≠ ""))
        (dedupe_and_sort_jobs [jobNoDate, jobSentinelDate]) := by
  refine ⟨by decide, by decide, by decide, by decide⟩

/-- C3 (amended): the output of `dedupe_and_sort_jobs` is sorted
ascending by `default_last_date_key` in the Python string order (so the
empty-date sentinel is maximal), and for every sort key the output's
records with that key appear exactly as in the deduped input (the sort
is stable with respect to ties); when every record carries either an
empty `lastDate` or the ISO form of a valid date other than the
sentinel value 9999-12-31 — a date equal to the sentinel ties with
empty dates and keeps first-seen order instead — no empty-date record
ever precedes a dated one. -/
theorem dedupe_and_sort_ordering (L : List JobRecord)
    (hwf : ∀ j ∈ L, j.lastDate = "" ∨
      ∃ y m d, isValidDate y m d = true ∧ ¬(y = 9999 ∧ m = 12 ∧ d = 31) ∧
        j.lastDate = isoDate y m d) :
    List.Sorted jobLE (dedupe_and_sort_jobs L) ∧
    List.Pairwise (fun a b => ¬(a.lastDate = "" ∧ b.lastDate ≠ ""))
      (dedupe_and_sort_jobs L) ∧
    ∀ k : String,
      (dedupe_and_sort_jobs L).filter (fun r => default_last_date_key r == k) =
        (dedupeLoop [] L).filter (fun r => default_last_date_key r == k) := by
  have hsorted := List.sorted_insertionSort jobLE (dedupeLoop [] L)
  refine ⟨hsorted, ?_, fun k => filter_key_insertionSort k _⟩
  refine List.Pairwise.imp_of_mem ?_ hsorted
  intro a b _ hb hle hcon
  obtain ⟨hae, hbne⟩ := hcon
  have hbL : b ∈ L := mem_of_mem_dedupeLoop
    ((List.perm_insertionSort jobLE (dedupeLoop [] L)).mem_iff.1 hb)
  rcases hwf b hbL with hb0 | ⟨y, m, d, hv, hne, hbd⟩
  · exact hbne hb0
  · have hka : default_last_date_key a = "9999-12-31" := by
      unfold default_last_date_key; rw [if_pos hae]
    have hkb : default_last_date_key b = isoDate y m d := by
      unfold default_last_date_key; rw [if_neg hbne, hbd]
    unfold jobLE strLe at hle
    rw [hka, hkb, sentinel_not_le_valid y m d hv hne] at hle
    exact Bool.false_ne_true hle

/-- Closed instantiation of `dedupe_and_sort_ordering` at a two-record
list: the undated record never precedes the dated one. -/
theorem dedupe_and_sort_ordering_witness :
    List.Pairwise (fun a b => ¬(a.lastDate = "" ∧ b.lastDate ≠ ""))
      (dedupe_and_sort_jobs [jobNoDate, jobMarch]) :=
  (dedupe_and_sort_ordering [jobNoDate, jobMarch] (by
    intro j hj
    rcases List.mem_cons.1 hj with rfl | hj
    · exact Or.inl rfl
    · rcases List.mem_cons.1 hj with rfl | hj
      · exact Or.inr ⟨2026, 3, 15, by decide, by decide, by decide⟩
      · cases hj)).2.1

/-! ## C7: date coercion -/

/-- C7 (counterexample): `coerce_date_value` is not strict-then-empty —
on an input that fails the expected pattern it returns the input
unchanged (the `return raw_val` branches at lines 876-877), not the
empty-string sentinel. -/
theorem coerce_date_passthrough_cex :
    coerce_date_value "TBD" = "TBD" ∧ ("TBD" : String) ≠ "" := by
  constructor <;> decide

/-- C7 (amended): the table-page last-date parsing is strict-then-empty
(any input failing the dd-mm-yyyy format yields the empty sentinel, and
a successful parse yields an ISO date), while `coerce_date_value` is
strict-then-passthrough: it never raises and never guesses an alternate
format, but on failure returns its input unchanged rather than the
empty sentinel. -/
theorem date_coercion_strictness (s : String) :
    (parse_table_last_date s = "" ∨ isIsoShape (parse_table_last_date s) = true) ∧
    (coerce_date_value s = s ∨ isIsoShape (coerce_date_value s) = true) ∧
    parse_table_last_date "15-03-2026" = "2026-03-15" ∧
    parse_table_last_date "TBD" = "" ∧
    coerce_date_value "04/02/2026" = "2026-02-04" := by
  refine ⟨?_, ?_, by decide, by decide, by decide⟩
  · unfold parse_table_last_date
    split
    · split_ifs with h
      · exact Or.inr (isoDate_shape _ _ _)
      · exact Or.inl rfl
    · exact Or.inl rfl
  · unfold coerce_date_value
    split
    · split_ifs with h
      · exact Or.inr (isoDate_shape _ _ _)
      · exact Or.inl rfl
    · exact Or.inl rfl

/-! ## C5: priority of the detail-extraction passes -/

theorem applyTableKV_keeps_postName (kv : List (String × String)) :
    ∀ (d : JobDetails) (v : String), d.postName = some v →
    (applyTableKV kv d).postName = some v := by
  induction kv with
  | nil => intro d v h; exact h
  | cons p kv ih =>
    intro d v h
    show (applyTableKV kv (tableStep d p)).postName = some v
    apply ih
    unfold tableStep
    cases hk : key_map p.1 with
    | none => exact h
    | some f =>
      show (if hasField d f = true then d else setField d f p.2).postName = some v
      by_cases hf : hasField d f = true
      · rw [if_pos hf]; exact h
      · rw [if_neg hf]
        cases f <;> simp_all [setField, hasField]

theorem applyTableKV_keeps_noOfPosts (kv : List (String × String)) :
    ∀ (d : JobDetails) (v : String), d.noOfPosts = some v →
    (applyTableKV kv d).noOfPosts = some v := by
  induction kv with
  | nil => intro d v h; exact h
  | cons p kv ih =>
    intro d v h
    show (applyTableKV kv (tableStep d p)).noOfPosts = some v
    apply ih
    unfold tableStep
    cases hk : key_map p.1 with
    | none => exact h
    | some f =>
      show (if hasField d f = true then d else setField d f p.2).noOfPosts = some v
      by_cases hf : hasField d f = true
      · rw [if_pos hf]; exact h
      · rw [if_neg hf]
        cases f <;> simp_all [setField, hasField]

theorem applyTableKV_keeps_salary (kv : List (String × String)) :
    ∀ (d : JobDetails) (v : String), d.salary = some v →
    (applyTableKV kv d).salary = some v := by
  induction kv with
  | nil => intro d v h; exact h
  | cons p kv ih =>
    intro d v h
    show (applyTableKV kv (tableStep d p)).salary = some v
    apply ih
    unfold tableStep
    cases hk : key_map p.1 with
    | none => exact h
    | some f =>
      show (if hasField d f = true then d else setField d f p.2).salary = some v
      by_cases hf : hasField d f = true
      · rw [if_pos hf]; exact h
      · rw [if_neg hf]
        cases f <;> simp_all [setField, hasField]

theorem applyTableKV_keeps_qualification (kv : List (String × String)) :
    ∀ (d : JobDetails) (v : String), d.qualification = some v →
    (applyTableKV kv d).qualification = some v := by
  induction kv with
  | nil => intro d v h; exact h
  | cons p kv ih =>
    intro d v h
    show (applyTableKV kv (tableStep d p)).qualification = some v
    apply ih
    unfold tableStep
    cases hk : key_map p.1 with
    | none => exact h
    | some f =>
      show (if hasField d f = true then d else setField d f p.2).qualification = some v
      by_cases hf : hasField d f = true
      · rw [if_pos hf]; exact h
      · rw [if_neg hf]
        cases f <;> simp_all [setField, hasField]

theorem applyTableKV_keeps_ageLimit (kv : List (String × String)) :
    ∀ (d : JobDetails) (vs : List String), d.ageLimit = some vs →
    (applyTableKV kv d).ageLimit = some vs := by
  induction kv with
  | nil => intro d vs h; exact h
  | cons p kv ih =>
    intro d vs h
    show (applyTableKV kv (tableStep d p)).ageLimit = some vs
    apply ih
    unfold tableStep
    cases hk : key_map p.1 with
    | none => exact h
    | some f =>
      show (if hasField d f = true then d else setField d f p.2).ageLimit = some vs
      by_cases hf : hasField d f = true
      · rw [if_pos hf]; exact h
      · rw [if_neg hf]
        cases f <;> simp_all [setField, hasField]

theorem applyTableKV_keeps_lastDate (kv : List (String × String)) :
    ∀ (d : JobDetails) (v : String), d.lastDate = some v →
    (applyTableKV kv d).lastDate = some v := by
  induction kv with
  | nil => intro d v h; exact h
  | cons p kv ih =>
    intro d v h
    show (applyTableKV kv (tableStep d p)).lastDate = some v
    apply ih
    unfold tableStep
    cases hk : key_map p.1 with
    | none => exact h
    | some f =>
      show (if hasField d f = true then d else setField d f p.2).lastDate = some v
      by_cases hf : hasField d f = true
      · rw [if_pos hf]; exact h
      · rw [if_neg hf]
        cases f <;> simp_all [setField, hasField]

theorem scanPostName_eq (lines : List String) (d : JobDetails) :
    scanPostName lines d = { d with postName :=
      (if find_value ["post name", "post names", "post", "name of post"] lines ≠ ""
       then some (find_value ["post name", "post names", "post", "name of post"] lines)
       else d.postName) } := by
  simp only [scanPostName]
  split_ifs <;> rfl

theorem scanNoOfPosts_eq (lines : List String) (d : JobDetails) :
    scanNoOfPosts lines d = { d with noOfPosts :=
      (if find_value ["no of posts", "no. of posts", "number of posts",
            "no of vacancy", "vacancies"] lines ≠ ""
       then some (find_value ["no of posts", "no. of posts", "number of posts",
            "no of vacancy", "vacancies"] lines)
       else d.noOfPosts) } := by
  simp only [scanNoOfPosts]
  split_ifs <;> rfl

theorem scanSalary_eq (lines : List String) (d : JobDetails) :
    scanSalary lines d = { d with
      salary :=
        (if find_value ["salary", "pay scale", "stipend"] lines ≠ ""
         then some (find_value ["salary", "pay scale", "stipend"] lines)
         else d.salary),
      salaryDetails :=
        (if find_value ["salary", "pay scale", "stipend"] lines ≠ ""
         then some [find_value ["salary", "pay scale", "stipend"] lines]
         else d.salaryDetails) } := by
  simp only [scanSalary]
  split_ifs <;> rfl

theorem scanQualification_eq (lines : List String) (d : JobDetails) :
    scanQualification lines d = { d with qualification :=
      (if find_value ["qualification", "educational qualification",
            "essential qualification"] lines ≠ ""
       then some (find_value ["qualification", "educational qualification",
            "essential qualification"] lines)
       else d.qualification) } := by
  simp only [scanQualification]
  split_ifs <;> rfl

theorem scanAgeLimit_eq (lines : List String) (d : JobDetails) :
    scanAgeLimit lines d = { d with ageLimit :=
      (if find_value ["age limit", "age", "age as on"] lines ≠ ""
       then some [find_value ["age limit", "age", "age as on"] lines]
       else d.ageLimit) } := by
  simp only [scanAgeLimit]
  split_ifs <;> rfl

theorem scanLastDate_eq (lines : List String) (d : JobDetails) :
    scanLastDate lines d = { d with lastDate :=
      (if find_value ["last date", "last date for online application",
            "last date to apply"] lines ≠ ""
       then some (coerce_date_value
            (find_value ["last date", "last date for online application",
              "last date to apply"] lines))
       else d.lastDate) } := by
  simp only [scanLastDate]
  split_ifs <;> rfl

theorem applyLineScan_eq (lines : List String) (d : JobDetails) :
    applyLineScan lines d = { d with
      postName :=
        (if find_value ["post name", "post names", "post", "name of post"] lines ≠ ""
         then some (find_value ["post name", "post names", "post", "name of post"] lines)
         else d.postName),
      noOfPosts :=
        (if find_value ["no of posts", "no. of posts", "number of posts",
              "no of vacancy", "vacancies"] lines ≠ ""
         then some (find_value ["no of posts", "no. of posts", "number of posts",
              "no of vacancy", "vacancies"] lines)
         else d.noOfPosts),
      salary :=
        (if find_value ["salary", "pay scale", "stipend"] lines ≠ ""
         then some (find_value ["salary", "pay scale", "stipend"] lines)
         else d.salary),
      salaryDetails :=
        (if find_value ["salary", "pay scale", "stipend"] lines ≠ ""
         then some [find_value ["salary", "pay scale", "stipend"] lines]
         else d.salaryDetails),
      qualification :=
        (if find_value ["qualification", "educational qualification",
              "essential qualification"] lines ≠ ""
         then some (find_value ["qualification", "educational qualification",
              "essential qualification"] lines)
         else d.qualification),
      ageLimit :=
        (if find_value ["age limit", "age", "age as on"] lines ≠ ""
         then some [find_value ["age limit", "age", "age as on"] lines]
         else d.ageLimit),
      lastDate :=
        (if find_value ["last date", "last date for online application",
              "last date to apply"] lines ≠ ""
         then some (coerce_date_value
              (find_value ["last date", "last date for online application",
                "last date to apply"] lines))
         else d.lastDate) } := by
  rw [applyLineScan, scanPostName_eq, scanNoOfPosts_eq, scanSalary_eq,
    scanQualification_eq, scanAgeLimit_eq, scanLastDate_eq]

/-- C5 (counterexample): a page whose table sets `postName` to `A` and
whose text carries the line `Post Name: B` — the table pass stores `A`,
but the later line-prefix scan overwrites it with `B` (the assignments
at lines 950-975 have no `not in details` guard), so the field set by
the earlier pass does not survive. -/
theorem line_scan_overwrite_cex :
    (fetch_job_details "https://example.com/a"
        (some { text := "Post Name: B", tables := [[["Post Name", "A"]]] })).postName =
      some "B" ∧
    (applyTableKV (parse_table_kv [[["Post Name", "A"]]])
        { url := "https://example.com/a", html := "Post Name: B" }).postName =
      some "A" ∧
    (some "B" : Option String) ≠ some "A" := by
  refine ⟨by decide, by decide, by decide⟩

/-- C5 (amended): the table key/value pass itself fills only fields not
already set, but the later line-prefix scan does not: whenever a
matching `label: value` line with a non-empty value exists, the scan
assigns that value to the field, replacing any value an earlier pass
stored; the fields are left unchanged only when no line matches (or the
matched value is empty). -/
theorem detail_pass_priority (kv : List (String × String))
    (lines : List String) (d : JobDetails) (v : String) (vs : List String) :
    (d.postName = some v → (applyTableKV kv d).postName = some v) ∧
    (d.noOfPosts = some v → (applyTableKV kv d).noOfPosts = some v) ∧
    (d.salary = some v → (applyTableKV kv d).salary = some v) ∧
    (d.qualification = some v → (applyTableKV kv d).qualification = some v) ∧
    (d.ageLimit = some vs → (applyTableKV kv d).ageLimit = some vs) ∧
    (d.lastDate = some v → (applyTableKV kv d).lastDate = some v) ∧
    ((applyLineScan lines d).postName =
      if (find_value ["post name", "post names", "post", "name of post"] lines ≠ "")
      then some (find_value ["post name", "post names", "post", "name of post"] lines)
      else d.postName) ∧
    ((applyLineScan lines d).noOfPosts =
      if (find_value ["no of posts", "no. of posts", "number of posts",
          "no of vacancy", "vacancies"] lines ≠ "")
      then some (find_value ["no of posts", "no. of posts", "number of posts",
          "no of vacancy", "vacancies"] lines)
      else d.noOfPosts) ∧
    ((applyLineScan lines d).salary =
      if (find_value ["salary", "pay scale", "stipend"] lines ≠ "")
      then some (find_value ["salary", "pay scale", "stipend"] lines)
      else d.salary) ∧
    ((applyLineScan lines d).qualification =
      if (find_value ["qualification", "educational qualification",
          "essential qualification"] lines ≠ "")
      then some (find_value ["qualification", "educational qualification",
          "essential qualification"] lines)
      else d.qualification) ∧
    ((applyLineScan lines d).ageLimit =
      if (find_value ["age limit", "age", "age as on"] lines ≠ "")
      then some [find_value ["age limit", "age", "age as on"] lines]
      else d.ageLimit) ∧
    ((applyLineScan lines d).lastDate =
      if (find_value ["last date", "last date for online application",
          "last date to apply"] lines ≠ "")
      then some (coerce_date_value
          (find_value ["last date", "last date for online application",
            "last date to apply"] lines))
      else d.lastDate) := by
  refine ⟨applyTableKV_keeps_postName kv d v,
    applyTableKV_keeps_noOfPosts kv d v,
    applyTableKV_keeps_salary kv d v,
    applyTableKV_keeps_qualification kv d v,
    applyTableKV_keeps_ageLimit kv d vs,
    applyTableKV_keeps_lastDate kv d v, ?_, ?_, ?_, ?_, ?_, ?_⟩ <;>
    rw [applyLineScan_eq]

/-- Closed instantiation of `detail_pass_priority`: the table pass keeps
an already-set `postName`, while the concrete line `Post Name: B`
overwrites the table-pass value. -/
theorem detail_pass_priority_witness :
    (applyTableKV [("salary", "X")] { postName := some "A" }).postName =
      some "A" ∧
    (applyLineScan ["Post Name: B"]
        (applyTableKV [("post name", "A")] {})).postName = some "B" := by
  constructor
  · exact (detail_pass_priority [("salary", "X")] []
      { postName := some "A" } "A" []).1 rfl
  · have h := (detail_pass_priority [("post name", "A")] ["Post Name: B"]
      (applyTableKV [("post name", "A")] {}) "A" []).2.2.2.2.2.2.1
    rw [h]
    decide

/-! ## C9: pagination -/

/-- C9 (confirmed): for a deduplicated 120-record cache, `offset=0,
limit=50` returns the first 50 records with `next_offset=50`, and
`offset=100, limit=50` returns the remaining 20 with `next_offset`
absent; in general `next_offset` is `offset+limit` exactly when records
remain beyond the returned page and absent otherwise. -/
theorem api_pagination (jobs : List JobRecord)
    (hd : dedupe_and_sort_jobs jobs = jobs) (hlen : jobs.length = 120) :
    (api_jobs_slice jobs 0 50).1 = jobs.take 50 ∧
    (api_jobs_slice jobs 0 50).2 = some 50 ∧
    (api_jobs_slice jobs 100 50).1.length = 20 ∧
    (api_jobs_slice jobs 100 50).2 = none ∧
    ∀ offset limit : Nat, (api_jobs_slice jobs offset limit).2 =
      (if offset + limit < 120 then some (offset + limit) else none) := by
  unfold api_jobs_slice
  rw [hd]
  refine ⟨?_, ?_, ?_, ?_, ?_⟩
  · simp [hlen]
  · simp [hlen]
  · simp [hlen, List.length_take, List.length_drop]
  · simp [hlen]
  · intro offset limit
    simp only [hlen]
    by_cases h : offset + limit < 120
    · rw [if_pos h, if_pos (by omega : min (offset + limit) 120 < 120)]
      congr 1
      omega
    · rw [if_neg h, if_neg (by omega : ¬ min (offset + limit) 120 < 120)]

set_option maxRecDepth 16000 in
/-- Closed instantiation of `api_pagination` at the concrete 120-record
cache `testJobs`. -/
theorem api_pagination_witness :
    (api_jobs_slice testJobs 100 50).2 = none :=
  (api_pagination testJobs (by decide) (by decide)).2.2.2.1

/-! ## C10: hydration marks the cache loaded -/

/-- C10 (confirmed): when the persisted snapshot file exists and parses
as a bare record list or as an object carrying a `jobs` list, hydration
returns success, sets `loaded` to true, leaves `loading` untouched, and
the read API's loading flag is then false whenever no cycle is in
progress. -/
theorem hydrate_sets_loaded (st : CacheState) (payload : DiskPayload)
    (jobs : List JobRecord)
    (h : payload = DiskPayload.arr jobs ∨ payload = DiskPayload.objWithJobs jobs) :
    (load_jobs_cache_from_disk true payload st).1 = true ∧
    (load_jobs_cache_from_disk true payload st).2.jobs_loaded = true ∧
    (load_jobs_cache_from_disk true payload st).2.jobs_loading = st.jobs_loading ∧
    (st.jobs_loading = false →
      api_loading_flag (load_jobs_cache_from_disk true payload st).2 = false) := by
  rcases h with rfl | rfl <;>
    exact ⟨rfl, rfl, rfl, fun hl => by
      simp [api_loading_flag, load_jobs_cache_from_disk, hl]⟩

/-- Closed instantiation of `hydrate_sets_loaded`: hydrating a bare
array into a cold store yields a non-loading read state. -/
theorem hydrate_sets_loaded_witness :
    api_loading_flag (load_jobs_cache_from_disk true (DiskPayload.arr []) {}).2 =
      false :=
  (hydrate_sets_loaded {} (DiskPayload.arr []) [] (Or.inl rfl)).2.2.2 rfl

/-! ## C8: state inference from the location -/

theorem ciAt_toLower : ∀ (ps cs rest : List Char), ciAt ps cs = some rest →
    isPrefixList ps (cs.map Char.toLower) = true := by
  intro ps
  induction ps with
  | nil => intro cs rest _; rfl
  | cons p ps ih =>
    intro cs rest h
    cases cs with
    | nil => simp [ciAt] at h
    | cons c cs =>
      unfold ciAt at h
      split_ifs at h with hc
      · simp only [List.map_cons, isPrefixList, Bool.and_eq_true, beq_iff_eq]
        exact ⟨hc.symm, ih cs rest h⟩

theorem isPrefixList_cons_true {p : Char} {ps l : List Char}
    (h : isPrefixList (p :: ps) l = true) :
    ∃ c cs, l = c :: cs ∧ (p == c) = true ∧ isPrefixList ps cs = true := by
  cases l with
  | nil => simp [isPrefixList] at h
  | cons c cs =>
    unfold isPrefixList at h
    rw [Bool.and_eq_true] at h
    exact ⟨c, cs, rfl, h.1, h.2⟩

theorem hasSub_of_prefix_drop : ∀ (l : List Char) (i : Nat) (pat : List Char),
    isPrefixList pat (l.drop i) = true → hasSub pat l = true := by
  intro l
  induction l with
  | nil =>
    intro i pat h
    cases pat with
    | nil => rfl
    | cons p ps => simp [List.drop_nil, isPrefixList] at h
  | cons c cs ih =>
    intro i pat h
    cases i with
    | zero =>
      unfold hasSub
      rw [List.drop_zero] at h
      simp [h]
    | succ i =>
      unfold hasSub
      have hr := ih i pat (by simpa using h)
      simp [hr]

theorem matchDS_eq_none (cs : List Char)
    (hd : hasSub ("district".data) (cs.map Char.toLower) = false)
    (hs : hasSub ("state".data) (cs.map Char.toLower) = false) :
    matchDS cs = none := by
  have hgen : ∀ (pat : List Char) (k : Nat) (rest : List Char),
      ciAt pat (cs.drop k) = some rest →
      isPrefixList pat ((cs.map Char.toLower).drop k) = true := by
    intro pat k rest hc
    have := ciAt_toLower pat _ rest hc
    rwa [List.map_drop] at this
  have hciB : ciAt ("district".data) cs = none := by
    cases hc : ciAt ("district".data) cs with
    | none => rfl
    | some rest =>
      exfalso
      have hp := hgen _ 0 _ (by simpa using hc)
      rw [List.drop_zero] at hp
      rw [hasSub_of_prefix_drop (cs.map Char.toLower) 0 _ (by simpa using hp)] at hd
      exact Bool.noConfusion hd
  have hciC : ciAt ("state".data) cs = none := by
    cases hc : ciAt ("state".data) cs with
    | none => rfl
    | some rest =>
      exfalso
      have hp := hgen _ 0 _ (by simpa using hc)
      rw [List.drop_zero] at hp
      rw [hasSub_of_prefix_drop (cs.map Char.toLower) 0 _ (by simpa using hp)] at hs
      exact Bool.noConfusion hs
  have hciA : ∀ k, ciAt (' ' :: "district".data) (cs.drop k) = none := by
    intro k
    cases hc : ciAt (' ' :: "district".data) (cs.drop k) with
    | none => rfl
    | some rest =>
      exfalso
      have hp := hgen _ k _ hc
      rcases isPrefixList_cons_true hp with ⟨x, xs, hx, _, hps⟩
      have hxs : xs = (cs.map Char.toLower).drop (k + 1) := by
        have ht := List.tail_drop (cs.map Char.toLower) k
        rw [hx] at ht
        simpa using ht
      rw [hxs] at hps
      rw [hasSub_of_prefix_drop (cs.map Char.toLower) (k + 1) _ hps] at hd
      exact Bool.noConfusion hd
  unfold matchDS
  simp only [hciA, hciB, hciC]
  split_ifs <;> rfl

theorem matchDSClaim_eq_none (cs : List Char)
    (hd : hasSub ("district".data) (cs.map Char.toLower) = false)
    (hs : hasSub ("state".data) (cs.map Char.toLower) = false) :
    matchDSClaim cs = none := by
  have hgen : ∀ (pat : List Char) (rest : List Char),
      ciAt pat cs = some rest →
      isPrefixList pat (cs.map Char.toLower) = true :=
    fun pat rest hc => ciAt_toLower pat cs rest hc
  have hciB : ciAt ("district".data) cs = none := by
    cases hc : ciAt ("district".data) cs with
    | none => rfl
    | some rest =>
      exfalso
      have hp := hgen _ _ hc
      rw [hasSub_of_prefix_drop (cs.map Char.toLower) 0 _ (by simpa using hp)] at hd
      exact Bool.noConfusion hd
  have hciC : ciAt ("state".data) cs = none := by
    cases hc : ciAt ("state".data) cs with
    | none => rfl
    | some rest =>
      exfalso
      have hp := hgen _ _ hc
      rw [hasSub_of_prefix_drop (cs.map Char.toLower) 0 _ (by simpa using hp)] at hs
      exact Bool.noConfusion hs
  unfold matchDSClaim
  simp only [hciB, hciC]
  rfl

theorem hasSub_tail_false {pat : List Char} {c : Char} {rest : List Char}
    (h : hasSub pat ((c :: rest).map Char.toLower) = false) :
    hasSub pat (rest.map Char.toLower) = false := by
  rw [List.map_cons] at h
  unfold hasSub at h
  rw [Bool.or_eq_false_iff] at h
  exact h.2

theorem subDS_no_sub : ∀ (fuel : Nat) (b : Bool) (cs : List Char),
    hasSub ("district".data) (cs.map Char.toLower) = false →
    hasSub ("state".data) (cs.map Char.toLower) = false →
    subDS fuel b cs = cs := by
  intro fuel
  induction fuel with
  | zero => intro b cs _ _; rfl
  | succ fuel ih =>
    intro b cs hd hs
    cases cs with
    | nil => rfl
    | cons c rest =>
      unfold subDS
      by_cases hb : (b && isWordChar c) = true
      · rw [if_pos hb, matchDS_eq_none (c :: rest) hd hs]
        show c :: subDS fuel (!isWordChar c) rest = c :: rest
        rw [ih _ rest (hasSub_tail_false hd) (hasSub_tail_false hs)]
      · rw [if_neg hb]
        rw [ih _ rest (hasSub_tail_false hd) (hasSub_tail_false hs)]

theorem subDSClaim_no_sub : ∀ (fuel : Nat) (b : Bool) (cs : List Char),
    hasSub ("district".data) (cs.map Char.toLower) = false →
    hasSub ("state".data) (cs.map Char.toLower) = false →
    subDSClaim fuel b cs = cs := by
  intro fuel
  induction fuel with
  | zero => intro b cs _ _; rfl
  | succ fuel ih =>
    intro b cs hd hs
    cases cs with
    | nil => rfl
    | cons c rest =>
      unfold subDSClaim
      by_cases hb : (b && isWordChar c) = true
      · rw [if_pos hb, matchDSClaim_eq_none (c :: rest) hd hs]
        show c :: subDSClaim fuel (!isWordChar c) rest = c :: rest
        rw [ih _ rest (hasSub_tail_false hd) (hasSub_tail_false hs)]
      · rw [if_neg hb]
        rw [ih _ rest (hasSub_tail_false hd) (hasSub_tail_false hs)]

theorem dropWhile_self_idem (p : Char → Bool) :
    ∀ l : List Char, List.dropWhile p (List.dropWhile p l) = List.dropWhile p l := by
  intro l
  induction l with
  | nil => rfl
  | cons c l ih =>
    by_cases hc : p c = true
    · rw [List.dropWhile_cons_of_pos hc]
      exact ih
    · rw [List.dropWhile_cons_of_neg (by simp [hc]),
        List.dropWhile_cons_of_neg (by simp [hc])]

theorem dropWhile_append_last (p : Char → Bool) (a : Char) (ha : p a = false) :
    ∀ l : List Char, List.dropWhile p (l ++ [a]) = List.dropWhile p l ++ [a] := by
  intro l
  induction l with
  | nil =>
    rw [List.nil_append, List.dropWhile_nil, List.nil_append,
      List.dropWhile_cons_of_neg (by simp [ha])]
  | cons c l ih =>
    by_cases hc : p c = true
    · rw [List.cons_append, List.dropWhile_cons_of_pos hc,
        List.dropWhile_cons_of_pos hc]
      exact ih
    · rw [List.cons_append, List.dropWhile_cons_of_neg (by simp [hc]),
        List.dropWhile_cons_of_neg (by simp [hc]), List.cons_append]

theorem dropWhile_head_false {p : Char → Bool} :
    ∀ {l a t}, List.dropWhile p l = a :: t → p a = false := by
  intro l
  induction l with
  | nil => intro a t h; simp [List.dropWhile] at h
  | cons c l ih =>
    intro a t h
    by_cases hc : p c = true
    · rw [List.dropWhile_cons_of_pos hc] at h
      exact ih h
    · rw [List.dropWhile_cons_of_neg (by simp [hc])] at h
      cases h
      simpa using hc

theorem pyStripList_idem (cs : List Char) :
    pyStripList (pyStripList cs) = pyStripList cs := by
  unfold pyStripList
  cases h : cs.dropWhile pySpace with
  | nil => simp [h]
  | cons a t =>
    have hpa : pySpace a = false := dropWhile_head_false h
    have hX : ((a :: t).reverse.dropWhile pySpace).reverse =
        a :: (t.reverse.dropWhile pySpace).reverse := by
      rw [List.reverse_cons, dropWhile_append_last pySpace a hpa,
        List.reverse_append]
      simp
    rw [hX, List.dropWhile_cons_of_neg (by simp [hpa]), List.reverse_cons,
      List.reverse_reverse, dropWhile_append_last pySpace a hpa,
      dropWhile_self_idem, List.reverse_append]
    simp

theorem pyStrip_idem (s : String) : pyStrip (pyStrip s) = pyStrip s := by
  unfold pyStrip
  rw [pyStripList_idem]

/-- C8 (counterexample): the claim says only the literal tokens
`District` / `State` are removed from the trailing segment, but the
regex alternative `word District` removes the preceding word as well:
for location `Some City, Ernakulam District` the code infers no state
at all, while the claim's reading yields `Ernakulam`. -/
theorem state_inference_word_district_cex :
    infer_state none (some "Some City, Ernakulam District") = none ∧
    claimStateInference "Some City, Ernakulam District" = some "Ernakulam" ∧
    (none : Option String) ≠ some "Ernakulam" := by
  refine ⟨by decide, by decide, by decide⟩

/-- C8 (amended): with no forced state and a comma in the location, the
inferred state is the trailing comma-separated segment, stripped, with
word-boundary occurrences of `word District`, `District` and `State`
(case-insensitive) removed and the result stripped again; empty results
yield no state.  On trailing segments containing no occurrence of
`district`/`state` at all, the code agrees with the claim's narrower
token-stripping reading and returns the stripped segment unchanged —
in particular `Some City, Kerala` yields `Kerala`. -/
theorem state_inference_tokenfree (loc cand0 : String)
    (hcomma : loc.data.contains ',' = true)
    (hlast : ((pySplit ',' loc).map pyStrip).getLast? = some cand0)
    (hd : hasSub ("district".data) (cand0.data.map Char.toLower) = false)
    (hs : hasSub ("state".data) (cand0.data.map Char.toLower) = false) :
    infer_state none (some loc) = claimStateInference loc ∧
    infer_state none (some loc) = (if cand0 = "" then none else some cand0) := by
  have hstrip : pyStrip cand0 = cand0 := by
    have hmem : cand0 ∈ (pySplit ',' loc).map pyStrip :=
      List.mem_of_getLast?_eq_some hlast
    rcases List.mem_map.1 hmem with ⟨x, _, hx⟩
    rw [← hx]
    exact pyStrip_idem x
  have hsub1 : removeDistrictState cand0 = cand0 := by
    unfold removeDistrictState
    rw [subDS_no_sub _ _ _ hd hs]
  have hsub2 : String.mk (subDSClaim cand0.data.length true cand0.data) = cand0 := by
    rw [subDSClaim_no_sub _ _ _ hd hs]
  simp only [infer_state, claimStateInference]
  rw [if_pos (by simpa using hcomma), if_pos (by simpa using hcomma)]
  simp only [hlast, hsub1, hsub2, hstrip]
  constructor <;> trivial

/-- Closed instantiation of `state_inference_tokenfree` at the claim's
own example: `Some City, Kerala` with no forced state infers `Kerala`. -/
theorem state_inference_witness :
    infer_state none (some "Some City, Kerala") = some "Kerala" := by
  have h := (state_inference_tokenfree "Some City, Kerala" "Kerala" (by decide)
    (by decide) (by decide) (by decide)).2
  rw [h]
  decide

end GovtJobs
